import Mathlib

/-!
Verification of the dejaVU window-activity watcher core.

Shallow embedding of the core pipeline of the repository:
* `src/src/watcher.py` — the standalone polling loop (probe, compare
  against the last observed `(title, process)` pair, insert-at-front, trim
  to 200, best-effort persistence), and `WatcherThread.run` in
  `src/src/gui.py`, which implements the identical algorithm.
* `src/src/gui.py` — title normalization (`normalize_window_title`),
  the unique-recent-contexts scan and grouped timeline of `update_ui` /
  `update_timeline`, the pinned-apps store (`pin_app`, `load_pinned_apps`,
  `save_pinned_apps`), and the log re-read error handling.

Python strings are modelled as Lean `String`s; the character-level
operations the code performs (`title[:40]`, `title.split(" - ")`,
`.strip()`, `"pat" in title`) are modelled on the underlying `List Char`,
which matches the code-point semantics of Python strings.
-/

namespace DejaVu

/-! ## Definitions -/

/-- An entry of the activity log, as written by the watcher loop:
`{"timestamp": ..., "title": ..., "process": ..., "hwnd": ...}`. -/
structure ActivityEntry where
  timestamp : String
  title : String
  process : String
  hwnd : Int
deriving DecidableEq, Repr

/-- A pinned-apps record: `{'process': ..., 'title': ..., 'hwnd': ...}`
(see `pin_app` in `src/src/gui.py`). -/
structure PinnedEntry where
  process : String
  title : String
  hwnd : Int
deriving DecidableEq, Repr

/-- `MAX_LOG_ENTRIES = 200` in both `watcher.py` and `gui.py`. -/
def MAX_LOG_ENTRIES : Nat := 200

/-- `MAX_RECENT_ITEMS = 50` in `gui.py`. -/
def MAX_RECENT_ITEMS : Nat := 50

/-- `IGNORE_TITLES` in `gui.py`. -/
def IGNORE_TITLES : List String := ["dejaVU", "Task Switching", "Program Manager"]

/-- The substring test of Python, `pat in l`: `pat` occurs somewhere in `l`. -/
def containsSub (pat : List Char) : List Char → Bool
  | [] => pat.isPrefixOf ([] : List Char)
  | c :: rest => pat.isPrefixOf (c :: rest) || containsSub pat rest

/-- Fuel-driven worker for `splitSep`; the fuel is an upper bound on the
length of the list, so the structural recursion always has enough of it. -/
def splitSepF (sep : List Char) : Nat → List Char → List (List Char)
  | _, [] => [[]]
  | 0, l => [l]
  | fuel + 1, c :: rest =>
    if sep ≠ [] && sep.isPrefixOf (c :: rest) then
      [] :: splitSepF sep fuel ((c :: rest).drop sep.length)
    else
      match splitSepF sep fuel rest with
      | [] => [[c]]
      | p :: ps => (c :: p) :: ps

/-- `str.split(sep)` of Python for a non-empty separator: cut at each
leftmost non-overlapping occurrence of `sep`. -/
def splitSep (sep l : List Char) : List (List Char) :=
  splitSepF sep l.length l

/-- `str.strip()` of Python: drop whitespace from both ends. -/
def stripChars (l : List Char) : List Char :=
  ((l.dropWhile Char.isWhitespace).reverse.dropWhile Char.isWhitespace).reverse

/-- The `" - "` delimiter used by `normalize_window_title`. -/
def sepDash : List Char := [' ', '-', ' ']

/-- The hard-coded editor pattern `"Visual Studio Code"`. -/
def vscPattern : List Char :=
  ['V', 'i', 's', 'u', 'a', 'l', ' ', 'S', 't', 'u', 'd', 'i', 'o', ' ',
   'C', 'o', 'd', 'e']

/-- The code-editor branch of `normalize_window_title` fires when
`"Visual Studio Code" in title` and `len(title.split(" - ")) >= 2`. -/
def isEditorTitle (title : String) : Bool :=
  containsSub vscPattern title.data && decide (2 ≤ (splitSep sepDash title.data).length)

/-- `DejaVuWindow.normalize_window_title` (`src/src/gui.py`):

```python
if "Visual Studio Code" in title:
    parts = title.split(" - ")
    if len(parts) >= 2: return parts[1].strip()
if len(title) > 40: return title[:40] + "..."
return title
```
The `process` argument is accepted and unused, as in the source. -/
def normalize_window_title (title process : String) : String :=
  if isEditorTitle title then
    String.mk (stripChars ((splitSep sepDash title.data).getD 1 []))
  else if 40 < title.data.length then
    String.mk (title.data.take 40) ++ "..."
  else title

/-- The in-memory comparison key of the loop:
`current_window = (window_title, exe_name)`. -/
abbrev WinKey := String × String

/-- The `(title, process)` pair of an entry, as compared by the watcher. -/
def entryKey (e : ActivityEntry) : WinKey := (e.title, e.process)

/-- The insert-and-trim performed on the freshly re-read log:
`activity_log.insert(0, log_entry)` followed by
`if len(activity_log) > MAX_LOG_ENTRIES: activity_log = activity_log[:MAX_LOG_ENTRIES]`. -/
def appendTrim (log : List ActivityEntry) (e : ActivityEntry) : List ActivityEntry :=
  if MAX_LOG_ENTRIES < (e :: log).length then (e :: log).take MAX_LOG_ENTRIES else e :: log

/-- The watcher state between polls: the persisted log and the in-memory
`last_window` (initially `(None, None)`, hence `Option`). -/
structure WatcherState where
  log : List ActivityEntry
  last : Option WinKey
deriving DecidableEq, Repr

/-- `last_window = (None, None)` over an empty log. -/
def initState : WatcherState := { log := [], last := none }

/-- One polling cycle given a probe result `p`:
`if window_title and current_window != last_window:` insert-and-trim and
update `last_window`, otherwise do nothing. -/
def watchStep (s : WatcherState) (p : ActivityEntry) : WatcherState :=
  if p.title ≠ "" ∧ some (entryKey p) ≠ s.last then
    { log := appendTrim s.log p, last := some (entryKey p) }
  else s

/-- Run the watcher loop over a whole sequence of probe results. -/
def runWatcher (s : WatcherState) (ps : List ActivityEntry) : WatcherState :=
  ps.foldl watchStep s

/-- The sequence of entries the loop appends, starting from a given
`last_window`: an entry is appended exactly when its key differs from the
current `last_window`, which it then replaces. -/
def newEntries : Option WinKey → List ActivityEntry → List ActivityEntry
  | _, [] => []
  | last, e :: rest =>
    if some (entryKey e) = last then newEntries last rest
    else e :: newEntries (some (entryKey e)) rest

/-- Specification-side view: one representative per maximal run of
consecutive entries sharing the same `key`, the representative being the
first member of the run. -/
def runReps {α : Type} [DecidableEq α] (key : ActivityEntry → α) :
    List ActivityEntry → List ActivityEntry
  | [] => []
  | e :: rest => e :: runReps key (rest.dropWhile fun x => decide (key x = key e))
termination_by l => l.length
decreasing_by
  simp only [List.length_cons]
  exact Nat.lt_succ_of_le (List.dropWhile_sublist _).length_le

/-- The `(process, normalized_title)` pair the spec designates as the
deduplication key. -/
def pairKey (e : ActivityEntry) : String × String :=
  (e.process, normalize_window_title e.title e.process)

/-- The key the code actually uses in `update_ui`:
`key = f"{entry['process']}::{kt}"`. -/
def stringKey (e : ActivityEntry) : String :=
  e.process ++ "::" ++ normalize_window_title e.title e.process

/-- `valid_data = [e for e in log_data if e['title'] not in IGNORE_TITLES]`. -/
def filterIgnored (log : List ActivityEntry) : List ActivityEntry :=
  log.filter fun e => !(IGNORE_TITLES.contains e.title)

/-- The collection loop of `update_ui` over `valid_data`: `seen` is the
set of string keys collected so far, `cnt` the number of contexts
collected so far; an unseen key appends its entry, and the loop breaks as
soon as 3 contexts are held (checked after each iteration, as in the
source). -/
def uniqueAux (seen : List String) (cnt : Nat) : List ActivityEntry → List ActivityEntry
  | [] => []
  | e :: rest =>
    if seen.contains (stringKey e) then
      if 3 ≤ cnt then [] else uniqueAux seen cnt rest
    else
      if 3 ≤ cnt + 1 then [e] else e :: uniqueAux (stringKey e :: seen) (cnt + 1) rest

/-- `unique_recent_contexts`: the `self.unique_contexts` list computed by
`update_ui` from a freshly loaded log. -/
def uniqueRecentContexts (log : List ActivityEntry) : List ActivityEntry :=
  uniqueAux [] 0 (filterIgnored log)

/-- First-occurrence deduplication by the string key, with an initial set
of already-seen keys and no limit. -/
def dedupK (seen : List String) : List ActivityEntry → List ActivityEntry
  | [] => []
  | e :: rest =>
    if seen.contains (stringKey e) then dedupK seen rest
    else e :: dedupK (stringKey e :: seen) rest

/-- A timeline group as built by `update_timeline`: all fields are taken
from the first (newest) member of the run it represents. -/
structure TimelineGroup where
  process : String
  title : String
  timestamp : String
  hwnd : Int
  full_title : String
deriving DecidableEq, Repr

/-- The group dictionary built from an entry:
`{'process': ..., 'title': normalize(...), 'timestamp': ..., 'hwnd': ...,
'full_title': entry['title']}`. -/
def mkGroup (e : ActivityEntry) : TimelineGroup :=
  { process := e.process
    title := normalize_window_title e.title e.process
    timestamp := e.timestamp
    hwnd := e.hwnd
    full_title := e.title }

/-- The grouping loop of `update_timeline`, carrying the
`(process, title)` key of the current (last appended) group: an entry
whose key equals it is skipped (the `pass` branch), any other entry opens
a new group. -/
def gtAux (k : String × String) : List ActivityEntry → List TimelineGroup
  | [] => []
  | e :: rest => if pairKey e = k then gtAux k rest else mkGroup e :: gtAux (pairKey e) rest

/-- `update_timeline` on the (already newest-first) data after
`data[:MAX_RECENT_ITEMS]`: the first entry always opens a group
(`current_group` starts as `None`), the rest are folded by `gtAux`. -/
def groupedTimelineAux : List ActivityEntry → List TimelineGroup
  | [] => []
  | e :: rest => mkGroup e :: gtAux (pairKey e) rest

/-- `grouped_timeline`: the `grouped_history` list computed by
`update_timeline` from the first 50 entries. -/
def groupedTimeline (log : List ActivityEntry) : List TimelineGroup :=
  groupedTimelineAux (log.take MAX_RECENT_ITEMS)

/-- Outcome of one attempt to open and parse the activity-log file, the
shallow embedding of the exceptions the Python readers can see:
`FileNotFoundError`, `json.JSONDecodeError`, or any other `OSError`
(e.g. a permission failure while the file exists). -/
inductive ReadOutcome where
  | ok (entries : List ActivityEntry)
  | missingFile
  | malformed
  | unreadable
deriving DecidableEq, Repr

/-- The log load performed by `update_ui` (`src/src/gui.py`): the whole
`getmtime`/`open`/`json.load` block sits in a bare `try/except`, so every
failure becomes `log_data = []`. -/
def gui_load (r : ReadOutcome) : List ActivityEntry :=
  match r with
  | .ok es => es
  | .missingFile => []
  | .malformed => []
  | .unreadable => []

/-- The pre-append re-read of the standalone watcher (`src/src/watcher.py`,
lines 59–64): `except (json.JSONDecodeError, FileNotFoundError)` yields an
empty log, but any other read error (such as a permission failure) is not
caught there — it propagates out of the read-modify-write. -/
def watcher_reload (r : ReadOutcome) : Except Unit (List ActivityEntry) :=
  match r with
  | .ok es => .ok es
  | .missingFile => .ok []
  | .malformed => .ok []
  | .unreadable => .error ()

/-- `DejaVuWindow.pin_app`: `if len(self.pinned_apps) >= 4:` show the
"Dock Full" rejection and return with the store untouched, else append the
new pin and save.  The Boolean reports whether the pin was accepted. -/
def pin_app (pinned : List PinnedEntry) (newPin : PinnedEntry) : List PinnedEntry × Bool :=
  if 4 ≤ pinned.length then (pinned, false)
  else (pinned ++ [newPin], true)

/-- JSON values: the structured content of the persisted files "modulo
formatting" (what `json.dump` writes and `json.load` reads back). -/
inductive JVal where
  | str (s : String)
  | num (n : Int)
  | arr (items : List JVal)
  | obj (fields : List (String × JVal))

/-- The JSON object for one pinned-app dict as built by `pin_app`:
`{'process': ..., 'title': ..., 'hwnd': ...}`. -/
def encodePinnedEntry (p : PinnedEntry) : JVal :=
  .obj [("process", .str p.process), ("title", .str p.title), ("hwnd", .num p.hwnd)]

/-- `save_pinned_apps`: `json.dump(self.pinned_apps, f, indent=2)` — the
indentation is formatting only, so the written structured content is the
JSON array of the pinned records. -/
def save_pinned_apps (pinned : List PinnedEntry) : JVal :=
  .arr (pinned.map encodePinnedEntry)

/-- `load_pinned_apps`: return the parsed file content, or `[]` when the
file is missing or unparseable (`except: pass` + `return []`). -/
def load_pinned_apps (file : Option JVal) : JVal :=
  match file with
  | some j => j
  | none => .arr []

/-- Dictionary lookup on a parsed JSON object. -/
def lookupField (fields : List (String × JVal)) (k : String) : Option JVal :=
  match fields with
  | [] => none
  | (k2, v) :: rest => if k2 = k then some v else lookupField rest k

/-- Specification-side reading of one pinned record out of a JSON value. -/
def decodePinnedEntry (j : JVal) : Option PinnedEntry :=
  match j with
  | .obj fields =>
    match lookupField fields "process", lookupField fields "title",
        lookupField fields "hwnd" with
    | some (.str pr), some (.str t), some (.num h) => some ⟨pr, t, h⟩
    | _, _, _ => none
  | _ => none

/-- Specification-side reading of a whole sequence of pinned records. -/
def decodePinnedList : List JVal → Option (List PinnedEntry)
  | [] => some []
  | j :: rest =>
    match decodePinnedEntry j, decodePinnedList rest with
    | some p, some ps => some (p :: ps)
    | _, _ => none

/-- The sequence of records a valid pinned-apps file represents. -/
def decodePinnedApps (j : JVal) : Option (List PinnedEntry) :=
  match j with
  | .arr items => decodePinnedList items
  | _ => none

/-! ## Helper lemmas -/

theorem appendTrim_eq_take (log : List ActivityEntry) (e : ActivityEntry) :
    appendTrim log e = (e :: log).take MAX_LOG_ENTRIES := by
  unfold appendTrim
  split
  · rfl
  · next h => exact (List.take_of_length_le (Nat.le_of_not_lt h)).symm

theorem take_append_take (A B : List ActivityEntry) (n : Nat) :
    (A ++ B.take n).take n = (A ++ B).take n := by
  rw [List.take_append_eq_append_take, List.take_append_eq_append_take, List.take_take,
    Nat.min_eq_left (Nat.sub_le n A.length)]

theorem newEntries_some (l : List ActivityEntry) :
    ∀ k : WinKey,
      newEntries (some k) l = runReps entryKey (l.dropWhile fun x => decide (entryKey x = k)) := by
  induction l with
  | nil => intro k; simp [newEntries, runReps]
  | cons e rest ih =>
    intro k
    by_cases hk : entryKey e = k
    · have h1 : newEntries (some k) (e :: rest) = newEntries (some k) rest := by
        simp [newEntries, hk]
      have h2 : ((e :: rest).dropWhile fun x => decide (entryKey x = k))
          = rest.dropWhile fun x => decide (entryKey x = k) := by
        simp [List.dropWhile_cons, hk]
      rw [h1, h2, ih k]
    · have h1 : newEntries (some k) (e :: rest)
          = e :: newEntries (some (entryKey e)) rest := by
        simp [newEntries, hk]
      have h2 : ((e :: rest).dropWhile fun x => decide (entryKey x = k)) = e :: rest := by
        simp [List.dropWhile_cons, hk]
      rw [h1, h2, ih (entryKey e)]
      simp only [runReps]

theorem newEntries_none (l : List ActivityEntry) :
    newEntries none l = runReps entryKey l := by
  cases l with
  | nil => simp [newEntries, runReps]
  | cons e rest =>
    have h1 : newEntries none (e :: rest) = e :: newEntries (some (entryKey e)) rest := by
      simp [newEntries]
    rw [h1, newEntries_some rest (entryKey e)]
    simp only [runReps]

/-- The heart of the watcher-loop characterization: starting from any
in-memory `last_window` and any persisted log within capacity, after a
sequence of probes with non-empty titles the log is the reverse of the
newly appended entries prepended to the old log, trimmed to capacity. -/
theorem runWatcher_log_eq (ps : List ActivityEntry) :
    ∀ (last : Option WinKey) (log : List ActivityEntry),
      (∀ e ∈ ps, e.title ≠ "") → log.length ≤ MAX_LOG_ENTRIES →
      (runWatcher ⟨log, last⟩ ps).log
        = ((newEntries last ps).reverse ++ log).take MAX_LOG_ENTRIES := by
  induction ps with
  | nil =>
    intro last log _ hlen
    simp only [runWatcher, List.foldl_nil, newEntries, List.reverse_nil, List.nil_append]
    exact (List.take_of_length_le hlen).symm
  | cons e rest ih =>
    intro last log h hlen
    have he : e.title ≠ "" := h e (List.mem_cons_self e rest)
    have hrest : ∀ x ∈ rest, x.title ≠ "" := fun x hx => h x (List.mem_cons_of_mem e hx)
    have hrun : runWatcher ⟨log, last⟩ (e :: rest)
        = runWatcher (watchStep ⟨log, last⟩ e) rest := rfl
    by_cases hk : some (entryKey e) = last
    · have hstep : watchStep ⟨log, last⟩ e = ⟨log, last⟩ := by
        unfold watchStep
        exact if_neg fun hcon => hcon.2 hk
      have hne : newEntries last (e :: rest) = newEntries last rest := by
        simp [newEntries, hk]
      rw [hrun, hstep, ih last log hrest hlen, hne]
    · have hstep : watchStep ⟨log, last⟩ e
          = ⟨(e :: log).take MAX_LOG_ENTRIES, some (entryKey e)⟩ := by
        unfold watchStep
        rw [if_pos ⟨he, hk⟩, appendTrim_eq_take]
      have hlen2 : ((e :: log).take MAX_LOG_ENTRIES).length ≤ MAX_LOG_ENTRIES :=
        List.length_take_le _ _
      have hne : newEntries last (e :: rest)
          = e :: newEntries (some (entryKey e)) rest := by
        simp [newEntries, hk]
      rw [hrun, hstep, ih (some (entryKey e)) ((e :: log).take MAX_LOG_ENTRIES) hrest hlen2,
        hne, List.reverse_cons, List.append_assoc, List.singleton_append, take_append_take]

theorem uniqueAux_eq_dedupK_take (l : List ActivityEntry) :
    ∀ (seen : List String) (cnt : Nat), cnt < 3 →
      uniqueAux seen cnt l = (dedupK seen l).take (3 - cnt) := by
  induction l with
  | nil => intro seen cnt _; simp [uniqueAux, dedupK]
  | cons e rest ih =>
    intro seen cnt hcnt
    by_cases hs : seen.contains (stringKey e)
    · have hnb : ¬ 3 ≤ cnt := Nat.not_le.mpr hcnt
      simp only [uniqueAux, dedupK, hs, if_true, hnb, if_false]
      exact ih seen cnt hcnt
    · simp only [uniqueAux, dedupK, hs, Bool.false_eq_true, if_false]
      by_cases hfull : 3 ≤ cnt + 1
      · have hc2 : cnt = 2 := by omega
        have h1 : 3 - cnt = 1 := by omega
        simp [hfull, hc2, h1]
      · have hlt : cnt + 1 < 3 := Nat.not_le.mp hfull
        have hsub : 3 - cnt = (3 - (cnt + 1)) + 1 := by omega
        simp only [hfull, if_false, hsub, List.take_succ_cons]
        exact congrArg (e :: ·) (ih (stringKey e :: seen) (cnt + 1) hlt)

theorem dedupK_sublist (l : List ActivityEntry) :
    ∀ seen : List String, (dedupK seen l).Sublist l := by
  induction l with
  | nil => intro seen; simp [dedupK]
  | cons e rest ih =>
    intro seen
    by_cases hs : seen.contains (stringKey e)
    · simp only [dedupK, hs, if_true]
      exact (ih seen).trans (List.sublist_cons_self e rest)
    · simp only [dedupK, hs, Bool.false_eq_true, if_false]
      exact (ih (stringKey e :: seen)).cons₂ e

theorem dedupK_key_unseen (l : List ActivityEntry) :
    ∀ (seen : List String) (e : ActivityEntry), e ∈ dedupK seen l →
      seen.contains (stringKey e) = false := by
  induction l with
  | nil => intro seen e he; simp [dedupK] at he
  | cons a rest ih =>
    intro seen e he
    by_cases hs : seen.contains (stringKey a)
    · simp only [dedupK, hs, if_true] at he
      exact ih seen e he
    · simp only [dedupK, hs, Bool.false_eq_true, if_false, List.mem_cons] at he
      rcases he with rfl | he
      · simpa using hs
      · have := ih (stringKey a :: seen) e he
        simp only [List.contains_cons, Bool.or_eq_false_iff] at this
        exact this.2

theorem dedupK_pairwise (l : List ActivityEntry) :
    ∀ seen : List String,
      (dedupK seen l).Pairwise fun a b => stringKey a ≠ stringKey b := by
  induction l with
  | nil => intro seen; simp [dedupK]
  | cons e rest ih =>
    intro seen
    by_cases hs : seen.contains (stringKey e)
    · simp only [dedupK, hs, if_true]
      exact ih seen
    · simp only [dedupK, hs, Bool.false_eq_true, if_false]
      refine List.Pairwise.cons ?_ (ih (stringKey e :: seen))
      intro b hb hkey
      have hun := dedupK_key_unseen rest (stringKey e :: seen) b hb
      rw [hkey] at hun
      simp at hun

theorem pairKey_determines_stringKey {a b : ActivityEntry}
    (h : pairKey a = pairKey b) : stringKey a = stringKey b := by
  have h1 : a.process = b.process := congrArg Prod.fst h
  have h2 : normalize_window_title a.title a.process
      = normalize_window_title b.title b.process := congrArg Prod.snd h
  unfold stringKey
  rw [h2, h1]

theorem gtAux_eq (l : List ActivityEntry) :
    ∀ k : String × String,
      gtAux k l
        = (runReps pairKey (l.dropWhile fun x => decide (pairKey x = k))).map mkGroup := by
  induction l with
  | nil => intro k; simp [gtAux, runReps]
  | cons e rest ih =>
    intro k
    by_cases hk : pairKey e = k
    · have h1 : gtAux k (e :: rest) = gtAux k rest := by
        simp [gtAux, hk]
      have h2 : ((e :: rest).dropWhile fun x => decide (pairKey x = k))
          = rest.dropWhile fun x => decide (pairKey x = k) := by
        simp [List.dropWhile_cons, hk]
      rw [h1, h2, ih k]
    · have h1 : gtAux k (e :: rest) = mkGroup e :: gtAux (pairKey e) rest := by
        simp [gtAux, hk]
      have h2 : ((e :: rest).dropWhile fun x => decide (pairKey x = k)) = e :: rest := by
        simp [List.dropWhile_cons, hk]
      rw [h1, h2, ih (pairKey e)]
      simp only [runReps, List.map_cons]

theorem groupedTimelineAux_eq (l : List ActivityEntry) :
    groupedTimelineAux l = (runReps pairKey l).map mkGroup := by
  cases l with
  | nil => simp [groupedTimelineAux, runReps]
  | cons e rest =>
    have h1 : groupedTimelineAux (e :: rest) = mkGroup e :: gtAux (pairKey e) rest := rfl
    rw [h1, gtAux_eq rest (pairKey e)]
    simp only [runReps, List.map_cons]

theorem decodePinnedList_map (l : List PinnedEntry) :
    decodePinnedList (l.map encodePinnedEntry) = some l := by
  induction l with
  | nil => rfl
  | cons p ps ih =>
    simp only [List.map_cons, decodePinnedList, ih]
    rfl

/-! ## Claim theorems -/

/-- C1: for every sequence of probed `(title, process)` pairs with
non-empty titles, fed to the watcher loop from an empty log, the resulting
log holds exactly one entry per maximal run of identical consecutive pairs
(the first probe of each run), newest-first, trimmed to the 200 most
recent runs — so its length never exceeds the capacity of 200.  The
concrete Notepad/Notepad/Calc scenario is checked in the witness. -/
theorem C1_watcher_log_is_run_representatives (ps : List ActivityEntry)
    (h : ∀ e ∈ ps, e.title ≠ "") :
    (runWatcher initState ps).log = (runReps entryKey ps).reverse.take MAX_LOG_ENTRIES := by
  have := runWatcher_log_eq ps none [] h (by simp [MAX_LOG_ENTRIES])
  have hinit : initState = ⟨[], none⟩ := rfl
  rw [hinit, this, List.append_nil, newEntries_none]

/-- Witness for C1: feeding `("Notepad","notepad.exe")`, the same pair
again, then `("Calc","calc.exe")` from an empty log yields exactly 2
entries, with the Calc entry at index 0. -/
theorem C1_witness :
    (runWatcher initState
        [⟨"2024-01-01 10:00:00", "Notepad", "notepad.exe", 11⟩,
         ⟨"2024-01-01 10:00:01", "Notepad", "notepad.exe", 11⟩,
         ⟨"2024-01-01 10:00:02", "Calc", "calc.exe", 22⟩]).log
      = (runReps entryKey
          [⟨"2024-01-01 10:00:00", "Notepad", "notepad.exe", 11⟩,
           ⟨"2024-01-01 10:00:01", "Notepad", "notepad.exe", 11⟩,
           ⟨"2024-01-01 10:00:02", "Calc", "calc.exe", 22⟩]).reverse.take MAX_LOG_ENTRIES ∧
    (runWatcher initState
        [⟨"2024-01-01 10:00:00", "Notepad", "notepad.exe", 11⟩,
         ⟨"2024-01-01 10:00:01", "Notepad", "notepad.exe", 11⟩,
         ⟨"2024-01-01 10:00:02", "Calc", "calc.exe", 22⟩]).log.length = 2 ∧
    (runWatcher initState
        [⟨"2024-01-01 10:00:00", "Notepad", "notepad.exe", 11⟩,
         ⟨"2024-01-01 10:00:01", "Notepad", "notepad.exe", 11⟩,
         ⟨"2024-01-01 10:00:02", "Calc", "calc.exe", 22⟩]).log.head?
      = some ⟨"2024-01-01 10:00:02", "Calc", "calc.exe", 22⟩ :=
  ⟨C1_watcher_log_is_run_representatives _ (by decide), by decide, by decide⟩

/-- C2: `normalize_window_title` is a pure total function (it is a Lean
`def`, so determinism — equal inputs give equal outputs — is the final
conjunct, and totality is its type).  For an editor-pattern title (contains
`"Visual Studio Code"` and splits on `" - "` into at least two segments)
it returns the second segment, stripped; otherwise a title longer than 40
characters becomes its first 40 characters followed by the `"..."` marker,
shorter titles are returned unchanged, and the output length is at most
43. -/
theorem C2_normalize_spec (title process : String) :
    (isEditorTitle title = true →
      normalize_window_title title process
        = String.mk (stripChars ((splitSep sepDash title.data).getD 1 []))) ∧
    (isEditorTitle title = false → 40 < title.data.length →
      (normalize_window_title title process).data = title.data.take 40 ++ "...".data) ∧
    (isEditorTitle title = false → title.data.length ≤ 40 →
      normalize_window_title title process = title) ∧
    (isEditorTitle title = false →
      (normalize_window_title title process).data.length ≤ 43) ∧
    (∀ t2 p2, t2 = title → p2 = process →
      normalize_window_title t2 p2 = normalize_window_title title process) := by
  refine ⟨?_, ?_, ?_, ?_, ?_⟩
  · intro h
    simp [normalize_window_title, h]
  · intro h hl
    simp only [normalize_window_title, h, Bool.false_eq_true, if_false, if_pos hl]
    rfl
  · intro h hl
    have hl2 : ¬ 40 < title.length := Nat.not_lt.mpr hl
    simp [normalize_window_title, h, hl2]
  · intro h
    simp only [normalize_window_title, h, Bool.false_eq_true, if_false]
    split
    · have hdata : (String.mk (title.data.take 40) ++ "...").data
          = title.data.take 40 ++ "...".data := rfl
      rw [hdata, List.length_append]
      have h40 : (title.data.take 40).length ≤ 40 := List.length_take_le _ _
      have h3 : ("...".data).length = 3 := rfl
      omega
    · next hl =>
      have : title.data.length ≤ 40 := Nat.le_of_not_lt hl
      omega
  · intro t2 p2 h1 h2
    rw [h1, h2]

/-- Witness for C2 at a concrete over-long non-editor title. -/
theorem C2_witness :
    isEditorTitle "this is a very long window title that exceeds forty characters" = false ∧
    40 < ("this is a very long window title that exceeds forty characters" : String).data.length ∧
    (normalize_window_title
        "this is a very long window title that exceeds forty characters" "x.exe").data
      = ("this is a very long window title that exceeds forty characters" :
          String).data.take 40 ++ "...".data ∧
    (normalize_window_title
        "this is a very long window title that exceeds forty characters" "x.exe").data.length
      ≤ 43 :=
  ⟨by decide, by decide,
   (C2_normalize_spec "this is a very long window title that exceeds forty characters"
      "x.exe").2.1 (by decide) (by decide),
   (C2_normalize_spec "this is a very long window title that exceeds forty characters"
      "x.exe").2.2.2.1 (by decide)⟩

/-- C3 counterexample: the code deduplicates by the concatenated string
`f"{process}::{kt}"`, not by the `(process, normalized_title)` pair; when
a process name itself contains `"::"` two distinct pair keys collide, and
the most recent entry per the second distinct pair key is dropped even
though neither entry is ignored and the limit of 3 is not reached. -/
theorem C3_counterexample :
    decide (pairKey ⟨"t1", "r", "p::q", 1⟩ = pairKey ⟨"t2", "q::r", "p", 2⟩) = false ∧
    stringKey ⟨"t1", "r", "p::q", 1⟩ = stringKey ⟨"t2", "q::r", "p", 2⟩ ∧
    IGNORE_TITLES.contains (⟨"t1", "r", "p::q", 1⟩ : ActivityEntry).title = false ∧
    IGNORE_TITLES.contains (⟨"t2", "q::r", "p", 2⟩ : ActivityEntry).title = false ∧
    uniqueRecentContexts [⟨"t1", "r", "p::q", 1⟩, ⟨"t2", "q::r", "p", 2⟩]
      = [⟨"t1", "r", "p::q", 1⟩] := by
  decide

/-- C3 (amended): `uniqueRecentContexts` drops ignored titles, then keeps
the first (most recent) entry per distinct string key
`process ++ "::" ++ normalized_title` — which coincides with the
`(process, normalized_title)` pair key except when colliding strings such
as processes containing `"::"` conflate distinct pairs — stopping at the
limit of 3.  The output never has more than 3 entries, never contains two
entries with the same pair key, and preserves the recency order of the
first occurrence of each key (it is a sublist of the filtered log). -/
theorem C3_unique_contexts_amended (log : List ActivityEntry) :
    uniqueRecentContexts log = (dedupK [] (filterIgnored log)).take 3 ∧
    (uniqueRecentContexts log).length ≤ 3 ∧
    (uniqueRecentContexts log).Pairwise (fun a b => stringKey a ≠ stringKey b) ∧
    (uniqueRecentContexts log).Pairwise (fun a b => pairKey a ≠ pairKey b) ∧
    (uniqueRecentContexts log).Sublist (filterIgnored log) := by
  have hchar : uniqueRecentContexts log = (dedupK [] (filterIgnored log)).take 3 := by
    unfold uniqueRecentContexts
    have := uniqueAux_eq_dedupK_take (filterIgnored log) [] 0 (by omega)
    simpa using this
  refine ⟨hchar, ?_, ?_, ?_, ?_⟩
  · rw [hchar]
    exact List.length_take_le _ _
  · rw [hchar]
    exact (dedupK_pairwise _ []).sublist (List.take_sublist _ _)
  · rw [hchar]
    refine ((dedupK_pairwise _ []).sublist (List.take_sublist _ _)).imp ?_
    intro a b hab hpk
    exact hab (pairKey_determines_stringKey hpk)
  · rw [hchar]
    exact (List.take_sublist _ _).trans (dedupK_sublist _ [])

/-- C4: `grouped_timeline` takes the first 50 entries (newest-first) and
coalesces exactly the strictly adjacent runs sharing the same
`(process, normalize(title))` key, each group represented by the first
(newest) member of its run (`runReps`); two runs of the same key separated
by a different key stay separate, so the log `[(A,1),(A,1),(B,1),(A,1)]`
produces the 3 groups A, B, A of the second conjunct. -/
theorem C4_grouped_timeline_adjacent_runs :
    (∀ log : List ActivityEntry,
      groupedTimeline log = (runReps pairKey (log.take MAX_RECENT_ITEMS)).map mkGroup) ∧
    groupedTimeline
        [⟨"t0", "A", "a.exe", 1⟩, ⟨"t1", "A", "a.exe", 1⟩, ⟨"t2", "B", "b.exe", 1⟩,
         ⟨"t3", "A", "a.exe", 1⟩]
      = [mkGroup ⟨"t0", "A", "a.exe", 1⟩, mkGroup ⟨"t2", "B", "b.exe", 1⟩,
         mkGroup ⟨"t3", "A", "a.exe", 1⟩] := by
  constructor
  · intro log
    exact groupedTimelineAux_eq (log.take MAX_RECENT_ITEMS)
  · decide

/-- C5 counterexample: a storage read failure that is neither a missing
file nor malformed content (an unreadable file, e.g. permission denied) is
propagated by the pre-append re-read of the standalone watcher instead of
being treated as an empty log. -/
theorem C5_counterexample :
    watcher_reload .unreadable = Except.error () := rfl

/-- C5 (amended): the `load()` realized in `update_ui` of the GUI returns
an empty log on a missing, unreadable, or malformed file and never signals
an error; the re-read of the standalone watcher treats a missing or
malformed file as empty but propagates other read errors such as an
unreadable file. -/
theorem C5_load_failure_handling :
    gui_load .missingFile = [] ∧
    gui_load .unreadable = [] ∧
    gui_load .malformed = [] ∧
    (∀ es, gui_load (.ok es) = es) ∧
    watcher_reload .missingFile = .ok [] ∧
    watcher_reload .malformed = .ok [] ∧
    (∀ es, watcher_reload (.ok es) = .ok es) ∧
    watcher_reload .unreadable = .error () := by
  refine ⟨rfl, rfl, rfl, fun es => rfl, rfl, rfl, fun es => rfl, rfl⟩

/-- C6: with 4 pinned entries a 5th pin attempt is rejected with the
reported capacity condition and the store keeps exactly its previous 4
entries; a pin succeeds exactly when the current count is below 4. -/
theorem C6_pin_capacity (pinned : List PinnedEntry) (p : PinnedEntry)
    (hfull : pinned.length = 4) :
    pin_app pinned p = (pinned, false) ∧
    (pin_app pinned p).1.length = 4 ∧
    (∀ q : List PinnedEntry, (pin_app q p).2 = true ↔ q.length < 4) ∧
    (∀ q : List PinnedEntry, q.length < 4 → pin_app q p = (q ++ [p], true)) := by
  refine ⟨?_, ?_, ?_, ?_⟩
  · unfold pin_app
    rw [if_pos (by omega)]
  · unfold pin_app
    rw [if_pos (by omega)]
    exact hfull
  · intro q
    unfold pin_app
    split
    · next h => simp; omega
    · next h => simp; omega
  · intro q hq
    unfold pin_app
    rw [if_neg (by omega)]

/-- Witness for C6 at a concrete full store of 4 pins. -/
theorem C6_witness :
    ([⟨"a.exe", "A", 1⟩, ⟨"b.exe", "B", 2⟩, ⟨"c.exe", "C", 3⟩,
      ⟨"d.exe", "D", 4⟩] : List PinnedEntry).length = 4 ∧
    pin_app [⟨"a.exe", "A", 1⟩, ⟨"b.exe", "B", 2⟩, ⟨"c.exe", "C", 3⟩, ⟨"d.exe", "D", 4⟩]
        ⟨"e.exe", "E", 5⟩
      = ([⟨"a.exe", "A", 1⟩, ⟨"b.exe", "B", 2⟩, ⟨"c.exe", "C", 3⟩, ⟨"d.exe", "D", 4⟩], false) :=
  ⟨rfl,
   (C6_pin_capacity
      [⟨"a.exe", "A", 1⟩, ⟨"b.exe", "B", 2⟩, ⟨"c.exe", "C", 3⟩, ⟨"d.exe", "D", 4⟩]
      ⟨"e.exe", "E", 5⟩ rfl).1⟩

/-- C7: after any append through the insert-and-trim of the watcher, the
log length is at most the capacity of 200 and the appended entry sits at
index 0 (single-writer read-modify-write, `src/src/watcher.py` lines
66–79 and `WatcherThread.run`). -/
theorem C7_append_invariant (log : List ActivityEntry) (e : ActivityEntry) :
    (appendTrim log e).length ≤ MAX_LOG_ENTRIES ∧
    (appendTrim log e).head? = some e := by
  rw [appendTrim_eq_take]
  constructor
  · exact List.length_take_le _ _
  · have h200 : MAX_LOG_ENTRIES = 199 + 1 := rfl
    rw [h200, List.take_succ_cons, List.head?_cons]

/-- C8: `save(load())` on the pinned-apps store is idempotent — for every
valid persisted content `j` representing the record sequence `l`, writing
back what was just read produces content representing the same sequence of
records, and a subsequent `load()` returns that same sequence. -/
theorem C8_pinned_roundtrip (j : JVal) (l : List PinnedEntry)
    (h : decodePinnedApps j = some l) :
    decodePinnedApps (save_pinned_apps l) = decodePinnedApps j ∧
    load_pinned_apps (some (save_pinned_apps l)) = save_pinned_apps l ∧
    decodePinnedApps (load_pinned_apps (some (save_pinned_apps l))) = some l := by
  have hrt : decodePinnedApps (save_pinned_apps l) = some l := decodePinnedList_map l
  exact ⟨by rw [hrt, h], rfl, hrt⟩

/-- Witness for C8 at a concrete one-record pinned-apps file. -/
theorem C8_witness :
    decodePinnedApps (JVal.arr [JVal.obj [("process", JVal.str "a.exe"),
        ("title", JVal.str "A"), ("hwnd", JVal.num 1)]]) = some [⟨"a.exe", "A", 1⟩] ∧
    decodePinnedApps (save_pinned_apps [⟨"a.exe", "A", 1⟩])
      = decodePinnedApps (JVal.arr [JVal.obj [("process", JVal.str "a.exe"),
          ("title", JVal.str "A"), ("hwnd", JVal.num 1)]]) ∧
    decodePinnedApps (load_pinned_apps (some (save_pinned_apps [⟨"a.exe", "A", 1⟩])))
      = some [⟨"a.exe", "A", 1⟩] :=
  ⟨rfl,
   (C8_pinned_roundtrip (JVal.arr [JVal.obj [("process", JVal.str "a.exe"),
      ("title", JVal.str "A"), ("hwnd", JVal.num 1)]]) [⟨"a.exe", "A", 1⟩] rfl).1,
   (C8_pinned_roundtrip (JVal.arr [JVal.obj [("process", JVal.str "a.exe"),
      ("title", JVal.str "A"), ("hwnd", JVal.num 1)]]) [⟨"a.exe", "A", 1⟩] rfl).2.2⟩

/-- C9: a probe with an empty window title is a complete no-op for the
watcher: it records nothing and leaves the in-memory `last_window`
unchanged; consequently two maximal runs of the same non-empty pair
separated only by empty-title probes produce a single log entry, as the
concrete second conjunct shows. -/
theorem C9_empty_title_is_noop :
    (∀ (s : WatcherState) (p : ActivityEntry), p.title = "" → watchStep s p = s) ∧
    (runWatcher initState
        [⟨"2024-01-01 10:00:00", "Notepad", "notepad.exe", 11⟩,
         ⟨"2024-01-01 10:00:01", "", "explorer.exe", 0⟩,
         ⟨"2024-01-01 10:00:02", "Notepad", "notepad.exe", 11⟩]).log
      = [⟨"2024-01-01 10:00:00", "Notepad", "notepad.exe", 11⟩] := by
  constructor
  · intro s p hp
    unfold watchStep
    exact if_neg fun hcon => hcon.1 hp
  · decide

/-- Witness for C9 at a concrete empty-title probe and state. -/
theorem C9_witness :
    (⟨"2024-01-01 11:00:00", "", "unknown", 0⟩ : ActivityEntry).title = "" ∧
    watchStep ⟨[⟨"2024-01-01 10:00:00", "Notepad", "notepad.exe", 11⟩],
        some ("Notepad", "notepad.exe")⟩
        ⟨"2024-01-01 11:00:00", "", "unknown", 0⟩
      = ⟨[⟨"2024-01-01 10:00:00", "Notepad", "notepad.exe", 11⟩],
        some ("Notepad", "notepad.exe")⟩ :=
  ⟨rfl, C9_empty_title_is_noop.1 _ _ rfl⟩

/-- C10: for every title containing the editor pattern with at least two
`" - "`-separated segments, `normalize_window_title` returns exactly the
second segment stripped of surrounding whitespace — no truncation is
applied and no ellipsis marker is appended — and such output can exceed
43 characters, as the existential conjunct shows. -/
theorem C10_editor_titles_not_truncated :
    (∀ title process, isEditorTitle title = true →
      normalize_window_title title process
        = String.mk (stripChars ((splitSep sepDash title.data).getD 1 []))) ∧
    (∃ title process, isEditorTitle title = true ∧
      43 < (normalize_window_title title process).data.length) := by
  constructor
  · intro title process h
    simp [normalize_window_title, h]
  · refine ⟨"doc - a project directory name that is well over forty characters long - Visual Studio Code",
      "Code.exe", ?_, ?_⟩
    · decide
    · decide

/-- Witness for C10 at a concrete editor-style title. -/
theorem C10_witness :
    isEditorTitle "main.py - dejavu - Visual Studio Code" = true ∧
    normalize_window_title "main.py - dejavu - Visual Studio Code" "Code.exe"
      = String.mk (stripChars
          ((splitSep sepDash ("main.py - dejavu - Visual Studio Code" : String).data).getD 1 [])) ∧
    normalize_window_title "main.py - dejavu - Visual Studio Code" "Code.exe" = "dejavu" :=
  ⟨by decide, C10_editor_titles_not_truncated.1 _ _ (by decide), by decide⟩

end DejaVu
